import Mathlib

/-!
Verification development for the spreadsheet import pipeline in
`scripts/import_master_driver_sep.py`.

The Python source is shallowly embedded below: pure helper functions become
Lean functions on `String` / `List`, Python dictionaries become insertion
ordered association lists with overwrite-on-duplicate semantics, and the
fallible header locator returns `Option` (where the Python raises
`RuntimeError`).  Machine text is modelled over ASCII: Python's `str.strip`,
`str.lower` and `\d` regex classes also accept some non-ASCII code points,
which none of the verified properties depend on.
-/

/-- Whitespace characters removed by Python's `str.strip()` (ASCII subset). -/
def pySpace (c : Char) : Bool :=
  c == ' ' || c == '\t' || c == '\n' || c == '\r' || c == '\x0b' || c == '\x0c'

/-- Python `s.strip()`: drop leading and trailing whitespace. -/
def pyStrip (s : String) : String :=
  String.mk (((s.toList.dropWhile pySpace).reverse.dropWhile pySpace).reverse)

/-- Left-to-right non-overlapping replacement of `"\r\n"` by `"\n"`,
modelling Python `str.replace('\r\n', '\n')`. -/
def crlfToLf : List Char → List Char
  | [] => []
  | '\r' :: '\n' :: rest => '\n' :: crlfToLf rest
  | c :: rest => c :: crlfToLf rest

/-- `normalize_text` from the source: unify line endings to `\n`, then strip. -/
def normalize_text (v : String) : String :=
  pyStrip (String.mk ((crlfToLf v.toList).map (fun c => if c == '\r' then '\n' else c)))

/-- Substring test on character lists: Python's `p in s`. -/
def containsSub (p : List Char) : List Char → Bool
  | [] => p.isEmpty
  | c :: rest => p.isPrefixOf (c :: rest) || containsSub p rest

/-- Python `needle in hay` on strings. -/
def strContains (hay needle : String) : Bool :=
  containsSub needle.toList hay.toList

/-- Python `str.lower()` over the ASCII letters, implemented on the
character list so that it evaluates by kernel reduction. -/
def toLowerStr (s : String) : String := String.mk (s.toList.map Char.toLower)

/-- Python `sep.join(parts)`. -/
def joinSep (sep : String) : List String → String
  | [] => ""
  | [a] => a
  | a :: rest => a ++ sep ++ joinSep sep rest

/-- `is_headerish` from the source: a value is header-ish when its
normalized lower-cased text is empty or contains one of the phrases. -/
def is_headerish (v : String) (phrases : List String) : Bool :=
  if toLowerStr (normalize_text v) = "" then true
  else phrases.any (fun p => strContains (toLowerStr (normalize_text v)) p)

/-- `col_to_num` from the source: base-26 letter decoding,
`n = n * 26 + (ord(ch) - 64)` accumulated left to right. -/
def col_to_num (col : String) : Nat :=
  col.toList.foldl (fun n ch => n * 26 + (ch.toNat - 64)) 0

/-- Full match of the regex `\d+(?:\.0+)?` (ASCII digits, as applied to the
cell texts the pipeline feeds it). -/
def fullmatchSerial (l : List Char) : Bool :=
  if (l.takeWhile (fun c => c.isDigit)).isEmpty then false
  else
    match l.dropWhile (fun c => c.isDigit) with
    | [] => true
    | '.' :: zs => !zs.isEmpty && zs.all (fun c => c == '0')
    | _ => false

/-- Numeric value of the leading digit run.  For a string matching
`\d+(?:\.0+)?` this is `int(float(value))` from the source; the float
round-trip is exact for all values below `2^53`, which covers every day
count the `datetime` library can represent (year 9999 is serial 2958465). -/
def digitsVal (l : List Char) : Nat :=
  (l.takeWhile (fun c => c.isDigit)).foldl (fun a c => a * 10 + (c.toNat - 48)) 0

/-- Gregorian leap-year test, as implemented by Python's `datetime`. -/
def isLeap (y : Nat) : Bool :=
  (y % 4 == 0 && y % 100 != 0) || y % 400 == 0

/-- Length of month `m` in year `y` (proleptic Gregorian calendar). -/
def daysInMonth (y m : Nat) : Nat :=
  if m = 2 then (if isLeap y then 29 else 28)
  else if m = 4 ∨ m = 6 ∨ m = 9 ∨ m = 11 then 30 else 31

/-- Calendar successor of a `(year, month, day)` triple.  This is the
specification-side meaning of "plus one day". -/
def nextDay : Nat × Nat × Nat → Nat × Nat × Nat
  | (y, m, d) =>
    if d < daysInMonth y m then (y, m, d + 1)
    else if m < 12 then (y, m + 1, 1) else (y + 1, 1, 1)

/-- Year-of-era layer of the standard civil-from-days algorithm, which is the
arithmetic `datetime + timedelta` performs (days are counted from March 1 so
the leap day sits at the end of the year). -/
def yoeOf (doe : Nat) : Nat :=
  (doe - doe / 1460 + doe / 36524 - doe / 146096) / 365

/-- Day-of-year within the era year located by `yoeOf`. -/
def doyOf (doe : Nat) : Nat :=
  doe - (365 * yoeOf doe + yoeOf doe / 4 - yoeOf doe / 100)

/-- Month/day layer of civil-from-days (March-based month numbering folded
back to calendar months). -/
def mdOf (doy : Nat) : Nat × Nat :=
  let mp := (5 * doy + 2) / 153
  (if mp < 10 then mp + 3 else mp - 9, doy - (153 * mp + 2) / 5 + 1)

/-- 1 for January/February (which belong to the next calendar year in the
March-based internal reckoning), 0 otherwise. -/
def adjBit (m : Nat) : Nat := if m ≤ 2 then 1 else 0

/-- Calendar date for a day offset within one 400-year era. -/
def innerCivil (doe : Nat) : Nat × Nat × Nat :=
  (yoeOf doe + adjBit (mdOf (doyOf doe)).1, (mdOf (doyOf doe)).1, (mdOf (doyOf doe)).2)

/-- Calendar date for a day count `z` measured from 0000-03-01. -/
def civilOfZ (z : Nat) : Nat × Nat × Nat :=
  ((z / 146097) * 400 + (innerCivil (z % 146097)).1,
   (innerCivil (z % 146097)).2.1, (innerCivil (z % 146097)).2.2)

/-- The date `datetime(1899, 12, 30) + timedelta(days = n)` (1899-12-30 is
day 693899 of the era count used by `civilOfZ`). -/
def civilOfSerial (n : Nat) : Nat × Nat × Nat := civilOfZ (n + 693899)

/-- Days-before-year counting function (spec side): days from 0000-03-01 up
to the start of era year `y`, counted by the leap rule. -/
def dBY2 (y : Nat) : Nat := 365 * y + y / 4 - y / 100 + y / 400

/-- Two-digit zero padding used by `strftime('%m')` / `strftime('%d')`. -/
def pad2 (n : Nat) : String := if n < 10 then "0" ++ toString n else toString n

/-- `strftime('%Y-%m-%d')` for the year range this pipeline can produce
(every reachable year has four digits). -/
def isoOfDate (d : Nat × Nat × Nat) : String :=
  toString d.1 ++ "-" ++ pad2 d.2.1 ++ "-" ++ pad2 d.2.2

/-- `excel_serial_to_iso` from the source.  The `datetime` range check is not
modelled: Python raises `OverflowError` past year 9999 (serial 2958465), and
the theorems below stay within that range, where this model is exact. -/
def excel_serial_to_iso (value : String) : String :=
  if pyStrip value = "" then ""
  else if fullmatchSerial (pyStrip value).toList then
    (if digitsVal (pyStrip value).toList ≤ 0 then ""
     else isoOfDate (civilOfSerial (digitsVal (pyStrip value).toList)))
  else pyStrip value

/-- Python `dict` assignment `d[k] = v`: overwrite in place if the key is
present, else append (insertion order preserved). -/
def dictInsert {κ α : Type} [BEq κ] (d : List (κ × α)) (k : κ) (v : α) : List (κ × α) :=
  if d.any (fun p => p.1 == k) then d.map (fun p => if p.1 == k then (k, v) else p)
  else d ++ [(k, v)]

/-- Python `d.get(k)`: the value stored at `k`, if any. -/
def dictGet {κ α : Type} [BEq κ] (d : List (κ × α)) (k : κ) : Option α :=
  (d.find? (fun p => p.1 == k)).map (fun p => p.2)

/-- Joined row text `' | '.join(normalize_text(x).lower() for x in row)`. -/
def rowJoined (row : List String) : String :=
  joinSep " | " (row.map (fun x => toLowerStr (normalize_text x)))

/-- `all(k in joined for k in must_have)`: the row carries every keyword. -/
def rowMatches (row : List String) (ks : List String) : Bool :=
  ks.all (fun k => strContains (rowJoined row) k)

/-- Header map built from a header row:
`{normalize_text(v).lower(): idx for idx, v in enumerate(row)}`. -/
def buildHeaderMap (row : List String) : List (String × Nat) :=
  row.enum.foldl (fun d p => dictInsert d (toLowerStr (normalize_text p.2)) p.1) []

/-- `find_header_row` from the source: first row containing every keyword,
together with its header map; `none` models the `RuntimeError` raised when
no row matches. -/
def find_header_row : List (List String) → List String → Option (Nat × List (String × Nat))
  | [], _ => none
  | row :: rest, ks =>
    if rowMatches row ks then some (0, buildHeaderMap row)
    else
      match find_header_row rest ks with
      | none => none
      | some (i, m) => some (i + 1, m)

/-- The helper `get` from the source: total field lookup, empty string for a
missing or out-of-range column index. -/
def getField (row : List String) (idx : Option Nat) : String :=
  match idx with
  | none => ""
  | some i => if row.length ≤ i then "" else normalize_text (row.getD i "")

/-- Python `a or b` on strings: `b` exactly when `a` is empty. -/
def pyOr (a b : String) : String := if a = "" then b else a

/-- One parsed `<c>` worksheet cell element: reference attribute `r`, type
attribute `t`, optional inline-string text (`is/t`, with `text or ''`
applied), optional value-node text (`v`, with `text or ''` applied). -/
structure XmlCell where
  ref : String
  t : Option String
  inl : Option String
  v : Option String
deriving DecidableEq, Repr

/-- `re.match(r'([A-Z]+)(\d+)', ref)` followed by `col_to_num` on the letter
group: at least one capital letter directly followed by a digit. -/
def parseRef (r : String) : Option Nat :=
  match r.toList.dropWhile (fun c => c.isUpper) with
  | c :: _ =>
    if !(r.toList.takeWhile (fun c => c.isUpper)).isEmpty && c.isDigit then
      some (col_to_num (String.mk (r.toList.takeWhile (fun c => c.isUpper))))
    else none
  | [] => none

/-- Python `int(txt)` on decimal text: optional surrounding whitespace,
optional sign, ASCII digits (underscore digit separators are not modelled;
no input of this pipeline contains them). -/
def pyInt (s : String) : Option Int :=
  match (pyStrip s).toList with
  | '-' :: ds =>
    if !ds.isEmpty && ds.all (fun c => c.isDigit) then some (-(digitsVal ds : Int)) else none
  | '+' :: ds =>
    if !ds.isEmpty && ds.all (fun c => c.isDigit) then some ((digitsVal ds : Int)) else none
  | ds =>
    if !ds.isEmpty && ds.all (fun c => c.isDigit) then some ((digitsVal ds : Int)) else none

/-- Python list indexing `l[i]` including negative indices; `none` models the
`IndexError` caught by the source. -/
def pyIndex (l : List String) (i : Int) : Option String :=
  if 0 ≤ i ∧ i < (l.length : Int) then l.get? i.toNat
  else if -(l.length : Int) ≤ i ∧ i < 0 then l.get? (i + (l.length : Int)).toNat
  else none

/-- Cell text resolution from `load_workbook_rows`: inline string first, then
the value node, resolved through the shared-string table when `t == 's'`;
the `try/except` around `shared[int(txt)]` falls back to the literal text. -/
def cellValue (shared : List String) (c : XmlCell) : String :=
  match c.inl with
  | some s => s
  | none =>
    match c.v with
    | none => ""
    | some txt =>
      if c.t = some "s" then
        match pyInt txt with
        | none => txt
        | some i => (pyIndex shared i).getD txt
      else txt

/-- One iteration of the per-row cell loop: cells without a well-formed
reference are skipped, others store their resolved text under their column. -/
def rowStep (shared : List String) (d : List (Nat × String)) (c : XmlCell) :
    List (Nat × String) :=
  match parseRef c.ref with
  | none => d
  | some col => dictInsert d col (cellValue shared c)

/-- The per-row `vals` dictionary: column number of each well-formed cell
reference mapped to the resolved cell text. -/
def rowVals (shared : List String) (cells : List XmlCell) : List (Nat × String) :=
  cells.foldl (rowStep shared) []

/-- Dense row materialization from `load_workbook_rows`: skip the row when
`vals` is empty, otherwise fill `range(1, max(vals) + 1)` with `vals.get(i, '')`. -/
def buildRow (shared : List String) (cells : List XmlCell) : Option (List String) :=
  if (rowVals shared cells).isEmpty then none
  else
    some ((List.range (((rowVals shared cells).map (fun p => p.1)).foldl max 0)).map
      (fun i => (dictGet (rowVals shared cells) (i + 1)).getD ""))

/-- Grid of one worksheet: the emitted dense rows, in document order. -/
def load_sheet_rows (shared : List String) (docRows : List (List XmlCell)) : List (List String) :=
  docRows.filterMap (fun cells => buildRow shared cells)

/-- Column numbers of the cells whose reference parses (spec side). -/
def populatedCols (cells : List XmlCell) : List Nat :=
  cells.filterMap (fun c => parseRef c.ref)

/-- Driver record of `parse_drivers` (fields in source dict order). -/
structure DriverRec where
  id : String
  name : String
  homeBase : String
  position : String
  notes : String
  twic : String
  hiredCity : String
  currentCity : String
  preferredPartner : String
  routeRestrictions : String
deriving DecidableEq, Repr

def driversKeys : List String := ["driver name", "home base", "availability"]

def driversPhrases : List String :=
  ["driver name", "past drivers", "drivers that have been dismissed"]

/-- Record built by `parse_drivers` for one data row. -/
def mkDriverRec (cols : List (String × Nat)) (k : Nat) (row : List String) : DriverRec where
  id := "sep_" ++ toString k
  name := getField row (dictGet cols "driver name:")
  homeBase := getField row (dictGet cols "home base:")
  position := pyOr (getField row (dictGet cols "position / \ndivision"))
    (getField row (dictGet cols "position / division"))
  notes := getField row (dictGet cols "driver availability & constraints")
  twic := pyOr (getField row (dictGet cols "twic card")) (getField row (dictGet cols "twic card "))
  hiredCity := ""
  currentCity := ""
  preferredPartner := ""
  routeRestrictions := ""

/-- Loop body of `parse_drivers`: header-echo skip, all-blank skip, empty
name skip, then append with the next sequential identifier. -/
def driversStep (cols : List (String × Nat)) (out : List DriverRec) (row : List String) :
    List DriverRec :=
  if is_headerish (getField row (dictGet cols "driver name:")) driversPhrases then out
  else
    if (mkDriverRec cols (out.length + 1) row).name = "" ∧
        (mkDriverRec cols (out.length + 1) row).homeBase = "" ∧
        (mkDriverRec cols (out.length + 1) row).position = "" ∧
        (mkDriverRec cols (out.length + 1) row).notes = "" ∧
        (mkDriverRec cols (out.length + 1) row).twic = "" then out
    else if (mkDriverRec cols (out.length + 1) row).name = "" then out
    else out ++ [mkDriverRec cols (out.length + 1) row]

/-- `parse_drivers` from the source; `none` when the header row is missing. -/
def parse_drivers (rows : List (List String)) : Option (List DriverRec) :=
  match find_header_row rows driversKeys with
  | none => none
  | some (h, cols) => some ((rows.drop (h + 1)).foldl (driversStep cols) [])

/-- OTR new-hire record of `parse_otr` (fields in source dict order). -/
structure OtrRec where
  id : String
  passed : String
  name : String
  age : String
  position : String
  yoe : String
  phone : String
  location : String
  ajgCH : String
  ghCH : String
  i9 : String
  nhpw : String
  ajgDT : String
  ghDT : String
  onboarding : String
  insurance : String
  gtg : String
  dispatched : String
  notes : String
  rtgDate : String
deriving DecidableEq, Repr

def otrKeys : List String := ["driver name", "ajg dt", "gh dt", "onboarding training"]

/-- Record built by `parse_otr` for one data row. -/
def mkOtrRec (cols : List (String × Nat)) (pfx : String) (k : Nat) (row : List String) :
    OtrRec where
  id := pfx ++ "_" ++ toString k
  passed := excel_serial_to_iso (getField row (dictGet cols "passed"))
  name := getField row (dictGet cols "driver name")
  age := getField row (dictGet cols "age")
  position := getField row (dictGet cols "position")
  yoe := getField row (dictGet cols "years of experience")
  phone := getField row (dictGet cols "phone#")
  location := getField row (dictGet cols "location")
  ajgCH := getField row (dictGet cols "ajg ch")
  ghCH := getField row (dictGet cols "gh ch")
  i9 := getField row (dictGet cols "i9")
  nhpw := getField row (dictGet cols "nhpw")
  ajgDT := getField row (dictGet cols "ajg dt")
  ghDT := getField row (dictGet cols "gh dt")
  onboarding := getField row (dictGet cols "onboarding training")
  insurance := getField row (dictGet cols "added to insurance")
  gtg := getField row (dictGet cols "gtg?")
  dispatched := getField row (dictGet cols "dispatched")
  notes := getField row (dictGet cols "notes")
  rtgDate := excel_serial_to_iso (getField row (dictGet cols "rtg date"))

/-- `not any(rec[k] for k in rec if k != 'id')`: every non-id field empty. -/
def otrAllEmpty (r : OtrRec) : Prop :=
  r.passed = "" ∧ r.name = "" ∧ r.age = "" ∧ r.position = "" ∧ r.yoe = "" ∧ r.phone = "" ∧
  r.location = "" ∧ r.ajgCH = "" ∧ r.ghCH = "" ∧ r.i9 = "" ∧ r.nhpw = "" ∧ r.ajgDT = "" ∧
  r.ghDT = "" ∧ r.onboarding = "" ∧ r.insurance = "" ∧ r.gtg = "" ∧ r.dispatched = "" ∧
  r.notes = "" ∧ r.rtgDate = ""

instance (r : OtrRec) : Decidable (otrAllEmpty r) := by
  unfold otrAllEmpty
  infer_instance

/-- Loop body of `parse_otr`. -/
def otrStep (cols : List (String × Nat)) (pfx : String) (out : List OtrRec)
    (row : List String) : List OtrRec :=
  if is_headerish (getField row (dictGet cols "driver name")) ["driver name"] then out
  else
    if otrAllEmpty (mkOtrRec cols pfx (out.length + 1) row) then out
    else if (mkOtrRec cols pfx (out.length + 1) row).name = "" then out
    else out ++ [mkOtrRec cols pfx (out.length + 1) row]

/-- `parse_otr` from the source; `none` when the header row is missing. -/
def parse_otr (rows : List (List String)) (pfx : String) : Option (List OtrRec) :=
  match find_header_row rows otrKeys with
  | none => none
  | some (h, cols) => some ((rows.drop (h + 1)).foldl (otrStep cols pfx) [])

/-- Map with an index running from `k`, used to state which record each
retained row produces and to model the id renumbering loop. -/
def mapIdxFrom {α β : Type} (k : Nat) (f : Nat → α → β) : List α → List β
  | [] => []
  | a :: l => f k a :: mapIdxFrom (k + 1) f l

/-- Composite identity key of `dedupe_otr`. -/
def otrKey (r : OtrRec) : String × String × String × String :=
  (toLowerStr (normalize_text r.name), normalize_text r.phone,
   normalize_text r.passed, normalize_text r.rtgDate)

/-- Loop body of `dedupe_otr`: the `seen` set is the first component. -/
def dedupeStep (st : List (String × String × String × String) × List OtrRec) (r : OtrRec) :
    List (String × String × String × String) × List OtrRec :=
  if st.1.any (fun k2 => decide (k2 = otrKey r)) then st
  else (otrKey r :: st.1, st.2 ++ [r])

/-- The id renumbering `r['id'] = f'otr_{i}'` for `i` counted from 1. -/
def setOtrId (i : Nat) (r : OtrRec) : OtrRec := { r with id := "otr_" ++ toString (i + 1) }

/-- `dedupe_otr` from the source: first occurrence of each key wins, then
identifiers are renumbered sequentially. -/
def dedupe_otr (records : List OtrRec) : List OtrRec :=
  mapIdxFrom 0 setOtrId (records.foldl dedupeStep ([], [])).2

/-- Spec-side formulation of the deduplication filter: a record is kept
exactly when no earlier record of the input carries an equal key. -/
def firstOccAux (prev : List OtrRec) : List OtrRec → List OtrRec
  | [] => []
  | r :: rest =>
    if prev.any (fun s => decide (otrKey s = otrKey r)) then firstOccAux (prev ++ [r]) rest
    else r :: firstOccAux (prev ++ [r]) rest

/-- Certification of one in-year calendar step of the month layer, checked
for every day offset strictly before the Feb-28 position. -/
def StepSpec (doy : Nat) : Prop :=
  (mdOf (doy + 1)).1 = (mdOf doy).1 ∧ (mdOf (doy + 1)).2 = (mdOf doy).2 + 1 ∧
    (mdOf doy).2 < daysInMonth 1 (mdOf doy).1 ∨
  (mdOf doy).1 ≠ 2 ∧ (mdOf doy).2 = daysInMonth 1 (mdOf doy).1 ∧ (mdOf (doy + 1)).2 = 1 ∧
    ((mdOf doy).1 < 12 ∧ (mdOf (doy + 1)).1 = (mdOf doy).1 + 1 ∧
       adjBit (mdOf (doy + 1)).1 = adjBit (mdOf doy).1 ∨
     (mdOf doy).1 = 12 ∧ (mdOf (doy + 1)).1 = 1)

instance : DecidablePred StepSpec := fun doy => by
  unfold StepSpec
  infer_instance

/-- Concrete OTR sheet: header row followed by a data row whose identity
field is empty while the age field is populated. -/
def otrHdrW : List String := ["Driver Name", "AJG DT", "GH DT", "Onboarding Training", "Age"]

def otrRowW : List String := ["", "", "", "", "30"]

def otrGridW : List (List String) := [otrHdrW, otrRowW]

/-- Concrete grid whose first matching header row sits at index 2. -/
def hdrGridW : List (List String) := [["x"], [], otrHdrW, ["y"]]

/-- Concrete driver sheet carrying both position column spellings; the data
row leaves the primary position column empty and fills the fallback one. -/
def drvHdrW : List String :=
  ["Driver Name:", "Home Base:", "Position / \nDivision", "Position / Division",
   "Driver Availability & Constraints", "TWIC Card"]

def drvRowW : List String := ["Alice", "", "", "X", "", ""]

def drvGridW : List (List String) := [drvHdrW, drvRowW]

/-- Concrete driver sheet with no TWIC column under either spelling. -/
def drv9HdrW : List String := ["Driver Name:", "Home Base:", "Driver Availability & Constraints"]

def drv9RowW : List String := ["Bob", "HQ", ""]

def drv9GridW : List (List String) := [drv9HdrW, drv9RowW]

/-- Concrete worksheet cells for the grid-shape claims. -/
def cellB1 : XmlCell := { ref := "B1", t := none, inl := none, v := some "x" }

def docRowsW : List (List XmlCell) := [[], [cellB1]]

/-- Shared-string cell whose value text is not an integer. -/
def cellBadIdx : XmlCell := { ref := "A1", t := some "s", inl := none, v := some "x7" }

/-- Shared-string cell whose integer value text is out of range. -/
def cellOobIdx : XmlCell := { ref := "A1", t := some "s", inl := none, v := some "5" }

/- ------------------------------------------------------------------ -/
/- Date arithmetic: `civilOfSerial` adds exactly one calendar day per
   serial unit.                                                        -/
/- ------------------------------------------------------------------ -/

theorem dim_indep {m : Nat} (y : Nat) (h : m ≠ 2) : daysInMonth y m = daysInMonth 1 m := by
  unfold daysInMonth
  rw [if_neg h, if_neg h]

theorem dim_min (y m : Nat) : daysInMonth 1 m ≤ daysInMonth y m := by
  by_cases h2 : m = 2
  · subst h2
    unfold daysInMonth
    have h1 : isLeap 1 = false := rfl
    rw [if_pos rfl, if_pos rfl, h1]
    cases hl : isLeap y <;> simp
  · rw [dim_indep y h2]

set_option maxRecDepth 4000 in
theorem stepSpec_all : ∀ doy, doy < 364 → StepSpec doy := by decide

theorem md_0 : mdOf 0 = (3, 1) := rfl

theorem md_364 : mdOf 364 = (2, 28) := rfl

theorem md_365 : mdOf 365 = (2, 29) := rfl

set_option maxRecDepth 4000 in
set_option maxHeartbeats 1000000 in
theorem yoe_endpoint_lo : ∀ y, y < 401 → yoeOf (dBY2 y) = y := by decide

set_option maxRecDepth 4000 in
set_option maxHeartbeats 1000000 in
theorem yoe_endpoint_hi : ∀ y, y < 400 → yoeOf (dBY2 (y + 1) - 1) = y := by decide

theorem yoeOf_mono_succ (doe : Nat) : yoeOf doe ≤ yoeOf (doe + 1) := by
  unfold yoeOf
  omega

theorem yoeOf_mono {a b : Nat} (h : a ≤ b) : yoeOf a ≤ yoeOf b := by
  induction b with
  | zero =>
    have : a = 0 := by omega
    subst this
    exact le_refl _
  | succ n ih =>
    rcases Nat.lt_or_ge a (n + 1) with h' | h'
    · exact le_trans (ih (by omega)) (yoeOf_mono_succ n)
    · have : a = n + 1 := by omega
      subst this
      exact le_refl _

theorem dBY2_succ (y : Nat) : dBY2 y + 365 ≤ dBY2 (y + 1) ∧ dBY2 (y + 1) ≤ dBY2 y + 366 := by
  unfold dBY2
  omega

theorem dBY2_mono {a b : Nat} (h : a ≤ b) : dBY2 a ≤ dBY2 b := by
  induction b with
  | zero =>
    have : a = 0 := by omega
    subst this
    exact le_refl _
  | succ n ih =>
    rcases Nat.lt_or_ge a (n + 1) with h' | h'
    · have := (dBY2_succ n).1
      have := ih (by omega)
      omega
    · have : a = n + 1 := by omega
      subst this
      exact le_refl _

theorem isLeap_iff (y : Nat) : isLeap y = true ↔ (y % 4 = 0 ∧ y % 100 ≠ 0) ∨ y % 400 = 0 := by
  unfold isLeap
  simp only [Bool.or_eq_true, Bool.and_eq_true, beq_iff_eq, bne_iff_ne, ne_eq]

set_option maxHeartbeats 1600000 in
theorem yearLen_leap (y : Nat) :
    (isLeap (y + 1) = true → dBY2 (y + 1) = dBY2 y + 366) ∧
    (isLeap (y + 1) = false → dBY2 (y + 1) = dBY2 y + 365) := by
  constructor
  · intro h
    rw [isLeap_iff] at h
    unfold dBY2
    rcases h with ⟨h4, h100⟩ | h400 <;> omega
  · intro h
    have h' : ¬ ((y + 1) % 4 = 0 ∧ (y + 1) % 100 ≠ 0 ∨ (y + 1) % 400 = 0) := by
      rw [← isLeap_iff, h]
      simp
    push_neg at h'
    unfold dBY2
    rcases Nat.decEq ((y + 1) % 4) 0 with h4 | h4
    · omega
    · have h100 := h'.1 h4
      have h400 := h'.2
      omega

theorem yoe_146096 : yoeOf 146096 = 399 := by decide

theorem year_sandwich (doe : Nat) (hdoe : doe ≤ 146096) :
    yoeOf doe ≤ 399 ∧ dBY2 (yoeOf doe) ≤ doe ∧ doe < dBY2 (yoeOf doe + 1) := by
  have h399 : yoeOf doe ≤ 399 := by
    have := yoeOf_mono hdoe
    rw [yoe_146096] at this
    exact this
  refine ⟨h399, ?_, ?_⟩
  · by_contra hlt
    push_neg at hlt
    have hy1 : 1 ≤ yoeOf doe := by
      rcases Nat.eq_zero_or_pos (yoeOf doe) with h0 | h0
      · rw [h0] at hlt
        have hz : dBY2 0 = 0 := rfl
        omega
      · exact h0
    have hle : doe ≤ dBY2 (yoeOf doe) - 1 := by omega
    have := yoeOf_mono hle
    have hep := yoe_endpoint_hi (yoeOf doe - 1) (by omega)
    have harr : yoeOf doe - 1 + 1 = yoeOf doe := by omega
    rw [harr] at hep
    rw [hep] at this
    omega
  · by_contra hge
    push_neg at hge
    by_cases h399' : yoeOf doe = 399
    · have hc : dBY2 400 = 146097 := rfl
      rw [h399', hc] at hge
      omega
    · have hlt400 : yoeOf doe + 1 < 401 := by omega
      have hep := yoe_endpoint_lo (yoeOf doe + 1) hlt400
      have := yoeOf_mono hge
      rw [hep] at this
      omega

theorem adjBit_one : adjBit 1 = 1 := rfl

theorem adjBit_two : adjBit 2 = 1 := rfl

theorem adjBit_three : adjBit 3 = 0 := rfl

theorem adjBit_twelve : adjBit 12 = 0 := rfl

theorem doyOf_eq (doe : Nat) (h : yoeOf doe ≤ 399) : doyOf doe = doe - dBY2 (yoeOf doe) := by
  unfold doyOf dBY2
  omega

theorem sandwich_unique {x a b : Nat} (ha : dBY2 a ≤ x) (ha' : x < dBY2 (a + 1))
    (hb : dBY2 b ≤ x) (hb' : x < dBY2 (b + 1)) : a = b := by
  rcases Nat.lt_trichotomy a b with h | h | h
  · have : dBY2 (a + 1) ≤ dBY2 b := dBY2_mono (by omega)
    omega
  · exact h
  · have : dBY2 (b + 1) ≤ dBY2 a := dBY2_mono (by omega)
    omega

theorem step_in_year (doe : Nat) (hdoe : doe < 146096) (hin : doe + 1 < dBY2 (yoeOf doe + 1)) :
    yoeOf (doe + 1) = yoeOf doe ∧ doyOf (doe + 1) = doyOf doe + 1 := by
  obtain ⟨h399, hlo, hhi⟩ := year_sandwich doe (by omega)
  obtain ⟨h399', hlo', hhi'⟩ := year_sandwich (doe + 1) (by omega)
  have heq : yoeOf (doe + 1) = yoeOf doe :=
    sandwich_unique hlo' hhi' (by omega) hin
  refine ⟨heq, ?_⟩
  rw [doyOf_eq _ h399, doyOf_eq _ h399', heq]
  omega

theorem inner_step (doe : Nat) (h : doe < 146096) :
    innerCivil (doe + 1) = nextDay (innerCivil doe) := by
  obtain ⟨h399, hlo, hhi⟩ := year_sandwich doe (by omega)
  have hyl2 : dBY2 (yoeOf doe + 1) ≤ dBY2 (yoeOf doe) + 366 := (dBY2_succ (yoeOf doe)).2
  have hyl1 : dBY2 (yoeOf doe) + 365 ≤ dBY2 (yoeOf doe + 1) := (dBY2_succ (yoeOf doe)).1
  have hdoyeq : doyOf doe = doe - dBY2 (yoeOf doe) := doyOf_eq doe h399
  rcases Nat.lt_or_ge (doe + 1) (dBY2 (yoeOf doe + 1)) with hin | hroll
  · obtain ⟨hy', hd'⟩ := step_in_year doe h hin
    have hdoylt : doyOf doe + 1 < 366 := by omega
    unfold innerCivil
    rw [hy', hd']
    rcases Nat.lt_or_ge (doyOf doe) 364 with h364 | h364
    · rcases stepSpec_all (doyOf doe) h364 with ⟨hm, hd, hlt⟩ | ⟨hne2, hdmax, hd1, hsub⟩
      · rw [hm, hd]
        have hbr : (mdOf (doyOf doe)).2 <
            daysInMonth (yoeOf doe + adjBit (mdOf (doyOf doe)).1) (mdOf (doyOf doe)).1 :=
          lt_of_lt_of_le hlt (dim_min _ _)
        simp only [nextDay]
        rw [if_pos hbr]
      · have hnbr : ¬ (mdOf (doyOf doe)).2 <
            daysInMonth (yoeOf doe + adjBit (mdOf (doyOf doe)).1) (mdOf (doyOf doe)).1 := by
          rw [dim_indep _ hne2, hdmax]
          omega
        simp only [nextDay]
        rw [if_neg hnbr]
        rcases hsub with ⟨hlt12, hm1, hadj⟩ | ⟨h12, hm1⟩
        · rw [if_pos hlt12, hadj, hm1, hd1]
        · rw [hm1, hd1, h12]
          have hn12 : ¬ (12 : Nat) < 12 := by omega
          rw [if_neg hn12, adjBit_one, adjBit_twelve]
    · have h364' : doyOf doe = 364 := by omega
      have hleap : isLeap (yoeOf doe + 1) = true := by
        rcases Bool.eq_false_or_eq_true (isLeap (yoeOf doe + 1)) with ht | hf
        · exact ht
        · have := (yearLen_leap (yoeOf doe)).2 hf
          omega
      have h365' : doyOf doe + 1 = 365 := by omega
      rw [h365', h364']
      simp only [md_364, md_365, adjBit_two]
      simp only [nextDay]
      have hdim : daysInMonth (yoeOf doe + 1) 2 = 29 := by
        unfold daysInMonth
        rw [if_pos rfl, hleap]
        simp
      rw [hdim]
      have h2829 : (28 : Nat) < 29 := by omega
      rw [if_pos h2829]
  · have heq : doe + 1 = dBY2 (yoeOf doe + 1) := by omega
    have hy1 : yoeOf doe + 1 ≤ 399 := by
      by_contra hgt
      have h400 : yoeOf doe = 399 := by omega
      have hc : dBY2 (yoeOf doe + 1) = 146097 := by
        rw [h400]
        decide
      omega
    have hyoe' : yoeOf (doe + 1) = yoeOf doe + 1 := by
      rw [heq]
      exact yoe_endpoint_lo (yoeOf doe + 1) (by omega)
    have hdoy' : doyOf (doe + 1) = 0 := by
      rw [doyOf_eq _ (by omega), hyoe', heq]
      omega
    unfold innerCivil
    rw [hyoe', hdoy']
    simp only [md_0, adjBit_three, Nat.add_zero]
    rcases Bool.eq_false_or_eq_true (isLeap (yoeOf doe + 1)) with ht | hf
    · have hlen := (yearLen_leap (yoeOf doe)).1 ht
      have h365' : doyOf doe = 365 := by omega
      rw [h365']
      simp only [md_365, adjBit_two]
      simp only [nextDay]
      have hdim : daysInMonth (yoeOf doe + 1) 2 = 29 := by
        unfold daysInMonth
        rw [if_pos rfl, ht]
        simp
      rw [hdim]
      have hn : ¬ (29 : Nat) < 29 := by omega
      rw [if_neg hn]
      have h212 : (2 : Nat) < 12 := by omega
      rw [if_pos h212]
    · have hlen := (yearLen_leap (yoeOf doe)).2 hf
      have h364' : doyOf doe = 364 := by omega
      rw [h364']
      simp only [md_364, adjBit_two]
      simp only [nextDay]
      have hdim : daysInMonth (yoeOf doe + 1) 2 = 28 := by
        unfold daysInMonth
        rw [if_pos rfl, hf]
        simp
      rw [hdim]
      have hn : ¬ (28 : Nat) < 28 := by omega
      rw [if_neg hn]
      have h212 : (2 : Nat) < 12 := by omega
      rw [if_pos h212]

theorem isLeap_add400 (e yy : Nat) : isLeap (e * 400 + yy) = isLeap yy := by
  have h4 : (e * 400 + yy) % 4 = yy % 4 := by omega
  have h100 : (e * 400 + yy) % 100 = yy % 100 := by omega
  have h400 : (e * 400 + yy) % 400 = yy % 400 := by omega
  unfold isLeap
  rw [h4, h100, h400]

theorem dim_add400 (e yy m : Nat) : daysInMonth (e * 400 + yy) m = daysInMonth yy m := by
  unfold daysInMonth
  rw [isLeap_add400]

theorem lift_nextDay (e yy m d : Nat) :
    nextDay (e * 400 + yy, m, d) =
      (e * 400 + (nextDay (yy, m, d)).1, (nextDay (yy, m, d)).2.1, (nextDay (yy, m, d)).2.2) := by
  simp only [nextDay]
  rw [dim_add400]
  by_cases h1 : d < daysInMonth yy m
  · rw [if_pos h1, if_pos h1]
  · rw [if_neg h1, if_neg h1]
    by_cases h2 : m < 12
    · rw [if_pos h2, if_pos h2]
    · rw [if_neg h2, if_neg h2]
      have harr : e * 400 + yy + 1 = e * 400 + (yy + 1) := by omega
      rw [harr]

theorem civilOfZ_step (z : Nat) : civilOfZ (z + 1) = nextDay (civilOfZ z) := by
  have hdm := Nat.div_add_mod z 146097
  have hmlt : z % 146097 < 146097 := Nat.mod_lt _ (by omega)
  rcases Nat.lt_or_ge (z % 146097) 146096 with hr | hr
  · have h1 : (z + 1) / 146097 = z / 146097 := by omega
    have h2 : (z + 1) % 146097 = z % 146097 + 1 := by omega
    unfold civilOfZ
    rw [h1, h2, inner_step _ hr]
    rcases hp : innerCivil (z % 146097) with ⟨a, b, c⟩
    rw [lift_nextDay]
  · have hr' : z % 146097 = 146096 := by omega
    have h1 : (z + 1) / 146097 = z / 146097 + 1 := by omega
    have h2 : (z + 1) % 146097 = 0 := by omega
    unfold civilOfZ
    rw [h1, h2, hr']
    have hi0 : innerCivil 0 = (0, 3, 1) := by decide
    have hie : innerCivil 146096 = (400, 2, 29) := by decide
    rw [hi0, hie]
    simp only [nextDay]
    have hl : isLeap (z / 146097 * 400 + 400) = true := by
      unfold isLeap
      have hm400 : (z / 146097 * 400 + 400) % 400 = 0 := by omega
      rw [hm400]
      simp
    have hdim : daysInMonth (z / 146097 * 400 + 400) 2 = 29 := by
      unfold daysInMonth
      rw [if_pos rfl, hl]
      simp
    rw [hdim]
    have hn : ¬ (29 : Nat) < 29 := by omega
    rw [if_neg hn]
    have h212 : (2 : Nat) < 12 := by omega
    rw [if_pos h212]
    have harr : (z / 146097 + 1) * 400 + 0 = z / 146097 * 400 + 400 := by omega
    rw [harr]

theorem civilOfSerial_step (n : Nat) : civilOfSerial (n + 1) = nextDay (civilOfSerial n) := by
  unfold civilOfSerial
  have harr : n + 1 + 693899 = n + 693899 + 1 := by omega
  rw [harr]
  exact civilOfZ_step (n + 693899)

theorem civilOfSerial_zero : civilOfSerial 0 = (1899, 12, 30) := by decide

theorem civilOfSerial_iterate (n : Nat) : civilOfSerial n = nextDay^[n] (1899, 12, 30) := by
  induction n with
  | zero =>
    rw [Function.iterate_zero]
    exact civilOfSerial_zero
  | succ n ih =>
    rw [Function.iterate_succ_apply', ← ih]
    exact civilOfSerial_step n

/- ------------------------------------------------------------------ -/
/- Claim C1                                                            -/
/- ------------------------------------------------------------------ -/

/-- C1 counterexample: the claim asserts the conversion maps `"1"` to
`"1900-01-01"`, but the code computes 1899-12-30 plus one day, which is
1899-12-31. -/
theorem excel_serial_one_is_1899_12_31 :
    excel_serial_to_iso "1" = "1899-12-31" ∧ ("1899-12-31" : String) ≠ "1900-01-01" := by
  constructor
  · decide
  · decide

/-- C1 (amended): for every digit string (optionally with a trailing `.0`
run) whose value `n` is positive and within `datetime`'s range, the
conversion returns the ISO rendering of the date reached from the epoch
1899-12-30 by `n` applications of the calendar successor; in particular
`"45000"` maps to `"2023-03-15"` and `"1"` maps to `"1899-12-31"`. -/
theorem excel_serial_epoch_plus_days :
    (∀ s n, fullmatchSerial (pyStrip s).toList = true → digitsVal (pyStrip s).toList = n →
      0 < n → n ≤ 2958465 →
      excel_serial_to_iso s = isoOfDate (nextDay^[n] (1899, 12, 30))) ∧
    excel_serial_to_iso "45000" = "2023-03-15" ∧
    excel_serial_to_iso "1" = "1899-12-31" := by
  refine ⟨?_, by decide, by decide⟩
  intro s n hpat hval hpos hrange
  unfold excel_serial_to_iso
  have hne : ¬ pyStrip s = "" := by
    intro h0
    rw [h0] at hpat
    exact absurd hpat (by decide)
  rw [if_neg hne, if_pos hpat, hval, if_neg (by omega), civilOfSerial_iterate n]

/-- C1 witness: the universal statement applied at the concrete serial 45000. -/
theorem excel_serial_epoch_plus_days_witness :
    excel_serial_to_iso "45000" = isoOfDate (nextDay^[45000] (1899, 12, 30)) :=
  excel_serial_epoch_plus_days.1 "45000" 45000 (by decide) (by decide) (by decide) (by decide)

/- ------------------------------------------------------------------ -/
/- Claim C6                                                            -/
/- ------------------------------------------------------------------ -/

/-- C6 counterexample: `"-5"` is not a pure-digit pattern, so the code
passes it through unchanged instead of mapping it to the empty string as the
claim asserts. -/
theorem excel_serial_minus_five_unchanged :
    excel_serial_to_iso "-5" = "-5" ∧ ("-5" : String) ≠ "" := by
  constructor
  · decide
  · decide

/-- C6 (amended): the conversion returns the empty string for a pure-digit
value denoting zero, and returns the stripped input unchanged when the
stripped input is not a pure-digit pattern; `"0"` maps to `""`, `"-5"` to
`"-5"`, `"N/A"` to `"N/A"`, and `""` to `""`. -/
theorem excel_serial_nonserial_passthrough :
    (∀ s, pyStrip s = "" → excel_serial_to_iso s = "") ∧
    (∀ s, fullmatchSerial (pyStrip s).toList = true → digitsVal (pyStrip s).toList = 0 →
      excel_serial_to_iso s = "") ∧
    (∀ s, fullmatchSerial (pyStrip s).toList = false → excel_serial_to_iso s = pyStrip s) ∧
    excel_serial_to_iso "0" = "" ∧ excel_serial_to_iso "-5" = "-5" ∧
    excel_serial_to_iso "N/A" = "N/A" ∧ excel_serial_to_iso "" = "" := by
  refine ⟨?_, ?_, ?_, by decide, by decide, by decide, by decide⟩
  · intro s h
    unfold excel_serial_to_iso
    rw [if_pos h]
  · intro s hpat hz
    unfold excel_serial_to_iso
    by_cases h0 : pyStrip s = ""
    · rw [if_pos h0]
    · rw [if_neg h0, if_pos hpat, hz, if_pos (Nat.le_refl 0)]
  · intro s hpat
    unfold excel_serial_to_iso
    by_cases h0 : pyStrip s = ""
    · rw [if_pos h0, h0]
    · have hcond : ¬ (fullmatchSerial (pyStrip s).toList = true) := by
        rw [hpat]
        exact Bool.false_ne_true
      rw [if_neg h0, if_neg hcond]

/-- C6 witness: the pass-through branch applied at the concrete input `"N/A"`. -/
theorem excel_serial_nonserial_passthrough_witness :
    excel_serial_to_iso "N/A" = pyStrip "N/A" :=
  excel_serial_nonserial_passthrough.2.2.1 "N/A" (by decide)

/- ------------------------------------------------------------------ -/
/- Claim C8                                                            -/
/- ------------------------------------------------------------------ -/

/-- C8: column-letter decoding accumulates `n * 26 + letter value` left to
right, attains the tested values `A=1, Z=26, AA=27, AZ=52, BA=53`, and is
injective on those tested inputs. -/
theorem col_to_num_base26 :
    (∀ l c, col_to_num (String.mk (l ++ [c])) = col_to_num (String.mk l) * 26 + (c.toNat - 64)) ∧
    col_to_num "A" = 1 ∧ col_to_num "Z" = 26 ∧ col_to_num "AA" = 27 ∧
    col_to_num "AZ" = 52 ∧ col_to_num "BA" = 53 ∧
    List.Pairwise (fun a b => col_to_num a ≠ col_to_num b) ["A", "Z", "AA", "AZ", "BA"] := by
  refine ⟨?_, by decide, by decide, by decide, by decide, by decide, by decide⟩
  intro l c
  unfold col_to_num
  have h1 : (String.mk (l ++ [c])).toList = l ++ [c] := rfl
  have h2 : (String.mk l).toList = l := rfl
  rw [h1, h2, List.foldl_append]
  rfl

/- ------------------------------------------------------------------ -/
/- Claim C4: the header locator                                        -/
/- ------------------------------------------------------------------ -/

theorem fhr_some {rows : List (List String)} {ks : List String} {i : Nat}
    {m : List (String × Nat)} (h : find_header_row rows ks = some (i, m)) :
    ∃ hi : i < rows.length,
      rowMatches (rows.get ⟨i, hi⟩) ks = true ∧
      m = buildHeaderMap (rows.get ⟨i, hi⟩) ∧
      ∀ j (hj : j < rows.length), j < i → rowMatches (rows.get ⟨j, hj⟩) ks = false := by
  induction rows generalizing i m with
  | nil => exact absurd h (by simp [find_header_row])
  | cons row rest ih =>
    unfold find_header_row at h
    by_cases hm : rowMatches row ks = true
    · rw [if_pos hm] at h
      simp only [Option.some.injEq, Prod.mk.injEq] at h
      obtain ⟨hi0, hm0⟩ := h
      subst hi0
      subst hm0
      refine ⟨by simp, hm, rfl, ?_⟩
      intro j hj hji
      omega
    · rw [if_neg hm] at h
      rw [Bool.not_eq_true] at hm
      cases heq : find_header_row rest ks with
      | none =>
        rw [heq] at h
        exact absurd h (by simp)
      | some im =>
        obtain ⟨i', m'⟩ := im
        rw [heq] at h
        simp only [Option.some.injEq, Prod.mk.injEq] at h
        obtain ⟨hi1, hm1⟩ := h
        subst hi1
        subst hm1
        obtain ⟨hi', hmt, hmeq, hmin⟩ := ih heq
        refine ⟨by simpa using Nat.succ_lt_succ hi', hmt, hmeq, ?_⟩
        intro j hj hji
        cases j with
        | zero => exact hm
        | succ j' => exact hmin j' (by simpa using Nat.lt_of_succ_lt_succ hj) (by omega)

theorem fhr_none_iff (rows : List (List String)) (ks : List String) :
    find_header_row rows ks = none ↔ ∀ r ∈ rows, rowMatches r ks = false := by
  induction rows with
  | nil => simp [find_header_row]
  | cons row rest ih =>
    unfold find_header_row
    by_cases hm : rowMatches row ks = true
    · rw [if_pos hm]
      constructor
      · intro hc
        exact absurd hc (by simp)
      · intro hall
        exact absurd (hall row (by simp)) (by simp [hm])
    · rw [if_neg hm]
      rw [Bool.not_eq_true] at hm
      cases heq : find_header_row rest ks with
      | none =>
        constructor
        · intro _ r hr
          rcases List.mem_cons.mp hr with hr0 | hr1
          · rw [hr0]
            exact hm
          · exact (ih.mp heq) r hr1
        · intro _
          rfl
      | some im =>
        obtain ⟨i', m'⟩ := im
        constructor
        · intro hc
          exact absurd hc (by simp)
        · intro hall
          have : find_header_row rest ks = none :=
            ih.mpr (fun r hr => hall r (List.mem_cons_of_mem _ hr))
          rw [this] at heq
          exact absurd heq (by simp)

/-- C4: the header locator returns the index of the first (topmost) row whose
joined lower-cased text contains every required keyword as a substring,
together with the header map built from that row, and it fails (the
`RuntimeError` path, modelled by `none`) exactly when no row of the grid
contains all keywords.  Keyword containment is a conjunction of substring
tests on the joined row text, so it does not depend on where in the row each
keyword occurs. -/
theorem find_header_row_first_match :
    ∀ rows ks,
      (∀ i m, find_header_row rows ks = some (i, m) →
        ∃ hi : i < rows.length,
          rowMatches (rows.get ⟨i, hi⟩) ks = true ∧
          m = buildHeaderMap (rows.get ⟨i, hi⟩) ∧
          ∀ j (hj : j < rows.length), j < i → rowMatches (rows.get ⟨j, hj⟩) ks = false) ∧
      (find_header_row rows ks = none ↔ ∀ r ∈ rows, rowMatches r ks = false) :=
  fun rows ks => ⟨fun _ _ h => fhr_some h, fhr_none_iff rows ks⟩

/-- C4 witness: in the concrete grid `hdrGridW` the locator returns row
index 2 (the first matching row), its header map, and all earlier rows fail
the keyword test. -/
theorem find_header_row_first_match_witness :
    ∃ hi : 2 < hdrGridW.length,
      rowMatches (hdrGridW.get ⟨2, hi⟩) otrKeys = true ∧
      buildHeaderMap otrHdrW = buildHeaderMap (hdrGridW.get ⟨2, hi⟩) ∧
      ∀ j (hj : j < hdrGridW.length), j < 2 → rowMatches (hdrGridW.get ⟨j, hj⟩) otrKeys = false :=
  (find_header_row_first_match hdrGridW otrKeys).1 2 (buildHeaderMap otrHdrW) (by decide)

/- ------------------------------------------------------------------ -/
/- Extractor row processing: claims C2, C5, C9                         -/
/- ------------------------------------------------------------------ -/

theorem is_headerish_empty (ps : List String) : is_headerish "" ps = true := by
  unfold is_headerish
  have h : toLowerStr (normalize_text "") = "" := rfl
  rw [if_pos h]

theorem headerish_false_ne_empty {v : String} {ps : List String}
    (h : is_headerish v ps = false) : v ≠ "" := by
  intro h0
  subst h0
  rw [is_headerish_empty] at h
  exact absurd h (by simp)

theorem mem_mapIdxFrom {α β : Type} (f : Nat → α → β) :
    ∀ (l : List α) (k : Nat) (b : β), b ∈ mapIdxFrom k f l → ∃ i a, a ∈ l ∧ b = f i a := by
  intro l
  induction l with
  | nil =>
    intro k b h
    simp [mapIdxFrom] at h
  | cons a l ih =>
    intro k b h
    rw [mapIdxFrom] at h
    rcases List.mem_cons.mp h with h0 | h1
    · exact ⟨k, a, by simp, h0⟩
    · obtain ⟨i, a', ha', hb⟩ := ih (k + 1) b h1
      exact ⟨i, a', by simp [ha'], hb⟩

theorem otr_fold (cols : List (String × Nat)) (pfx : String) :
    ∀ (l : List (List String)) (acc : List OtrRec),
      l.foldl (otrStep cols pfx) acc =
        acc ++ mapIdxFrom acc.length (fun i row => mkOtrRec cols pfx (i + 1) row)
          (l.filter
            (fun row => !is_headerish (getField row (dictGet cols "driver name")) ["driver name"])) := by
  intro l
  induction l with
  | nil =>
    intro acc
    simp [mapIdxFrom]
  | cons row rest ih =>
    intro acc
    rw [List.foldl_cons]
    by_cases hk : is_headerish (getField row (dictGet cols "driver name")) ["driver name"] = true
    · have hstep : otrStep cols pfx acc row = acc := by
        unfold otrStep
        rw [if_pos hk]
      have hfil : (row :: rest).filter
          (fun row => !is_headerish (getField row (dictGet cols "driver name")) ["driver name"]) =
          rest.filter
            (fun row => !is_headerish (getField row (dictGet cols "driver name")) ["driver name"]) := by
        rw [List.filter_cons]
        simp [hk]
      rw [hstep, hfil]
      exact ih acc
    · have hk' : is_headerish (getField row (dictGet cols "driver name")) ["driver name"] = false := by
        rw [← Bool.not_eq_true]
        exact hk
      have hne : (mkOtrRec cols pfx (acc.length + 1) row).name ≠ "" :=
        headerish_false_ne_empty hk'
      have hstep : otrStep cols pfx acc row = acc ++ [mkOtrRec cols pfx (acc.length + 1) row] := by
        unfold otrStep
        rw [if_neg hk, if_neg (fun hall => hne hall.2.1), if_neg hne]
      have hfil : (row :: rest).filter
          (fun row => !is_headerish (getField row (dictGet cols "driver name")) ["driver name"]) =
          row :: rest.filter
            (fun row => !is_headerish (getField row (dictGet cols "driver name")) ["driver name"]) := by
        rw [List.filter_cons]
        simp [hk']
      rw [hstep, hfil, ih (acc ++ [mkOtrRec cols pfx (acc.length + 1) row])]
      rw [mapIdxFrom]
      simp [List.append_assoc]

/-- C2 counterexample: in `otrGridW` the only data row resolves a non-empty
age field, yet no record is emitted, because its identity field is empty and
the header-echo test `is_headerish` already treats an empty identity as a
skip condition. -/
theorem otr_row_with_nonempty_field_not_emitted :
    getField otrRowW (dictGet (buildHeaderMap otrHdrW) "age") = "30" ∧
    parse_otr otrGridW "otr" = some [] := by
  constructor
  · decide
  · decide

/-- C2 (amended): for every data row strictly after the header row, the OTR
extractor emits a record exactly when the row's identity field, after
normalization, is non-empty and free of header-echo phrases; rows with an
empty identity field are excluded even when another resolved field is
non-empty (no schema retains them), and fully blank rows are excluded since
their identity field is empty.  The retained rows produce records in order
with sequential identifiers counted from 1. -/
theorem parse_otr_emits_iff_identity_not_headerish :
    ∀ rows pfx h cols, find_header_row rows otrKeys = some (h, cols) →
      parse_otr rows pfx =
        some (mapIdxFrom 0 (fun i row => mkOtrRec cols pfx (i + 1) row)
          ((rows.drop (h + 1)).filter
            (fun row => !is_headerish (getField row (dictGet cols "driver name")) ["driver name"]))) := by
  intro rows pfx h cols hf
  simp only [parse_otr, hf]
  rw [otr_fold]
  simp

/-- C2 witness: the amended characterization applied to the concrete grid
`otrGridW`. -/
theorem parse_otr_emits_iff_identity_not_headerish_witness :
    parse_otr otrGridW "otr" =
      some (mapIdxFrom 0 (fun i row => mkOtrRec (buildHeaderMap otrHdrW) "otr" (i + 1) row)
        ((otrGridW.drop 1).filter
          (fun row =>
            !is_headerish (getField row (dictGet (buildHeaderMap otrHdrW) "driver name"))
              ["driver name"]))) :=
  parse_otr_emits_iff_identity_not_headerish otrGridW "otr" 0 (buildHeaderMap otrHdrW) (by decide)

theorem drivers_fold (cols : List (String × Nat)) :
    ∀ (l : List (List String)) (acc : List DriverRec),
      l.foldl (driversStep cols) acc =
        acc ++ mapIdxFrom acc.length (fun i row => mkDriverRec cols (i + 1) row)
          (l.filter
            (fun row => !is_headerish (getField row (dictGet cols "driver name:")) driversPhrases)) := by
  intro l
  induction l with
  | nil =>
    intro acc
    simp [mapIdxFrom]
  | cons row rest ih =>
    intro acc
    rw [List.foldl_cons]
    by_cases hk : is_headerish (getField row (dictGet cols "driver name:")) driversPhrases = true
    · have hstep : driversStep cols acc row = acc := by
        unfold driversStep
        rw [if_pos hk]
      have hfil : (row :: rest).filter
          (fun row => !is_headerish (getField row (dictGet cols "driver name:")) driversPhrases) =
          rest.filter
            (fun row => !is_headerish (getField row (dictGet cols "driver name:")) driversPhrases) := by
        rw [List.filter_cons]
        simp [hk]
      rw [hstep, hfil]
      exact ih acc
    · have hk' : is_headerish (getField row (dictGet cols "driver name:")) driversPhrases = false := by
        rw [← Bool.not_eq_true]
        exact hk
      have hne : (mkDriverRec cols (acc.length + 1) row).name ≠ "" :=
        headerish_false_ne_empty hk'
      have hstep : driversStep cols acc row = acc ++ [mkDriverRec cols (acc.length + 1) row] := by
        unfold driversStep
        rw [if_neg hk, if_neg (fun hall => hne hall.1), if_neg hne]
      have hfil : (row :: rest).filter
          (fun row => !is_headerish (getField row (dictGet cols "driver name:")) driversPhrases) =
          row :: rest.filter
            (fun row => !is_headerish (getField row (dictGet cols "driver name:")) driversPhrases) := by
        rw [List.filter_cons]
        simp [hk']
      rw [hstep, hfil, ih (acc ++ [mkDriverRec cols (acc.length + 1) row])]
      rw [mapIdxFrom]
      simp [List.append_assoc]

/-- C5 counterexample: in `drvGridW` the primary position column
(`"position / \ndivision"`) is present in the header map (at index 2) and
the data row's cell there is empty, yet the extracted position is the
fallback column's value `"X"` — the claim says the primary column's (empty)
value should have been taken. -/
theorem position_takes_fallback_despite_primary_present :
    dictGet (buildHeaderMap drvHdrW) "position / \ndivision" = some 2 ∧
    getField drvRowW (some 2) = "" ∧
    (parse_drivers drvGridW).map (fun l => l.map (fun r => r.position)) = some ["X"] ∧
    ("X" : String) ≠ "" := by
  refine ⟨by decide, by decide, by decide, by decide⟩

/-- C5 (amended): for a field with a primary and a fallback column title
(here the drivers' position field), the extractor resolves the Python
`a or b` of the two column values: it keeps the primary column's value
whenever that value is non-empty, and falls back to the fallback column's
value whenever the primary lookup yields the empty string — either because
the column is absent or because the cell itself is empty.  Presence of the
primary column alone does not stop the fallback. -/
theorem field_fallback_first_nonempty :
    ∀ rows h cols out r, find_header_row rows driversKeys = some (h, cols) →
      parse_drivers rows = some out → r ∈ out →
      ∃ row, row ∈ rows.drop (h + 1) ∧
        r.position = pyOr (getField row (dictGet cols "position / \ndivision"))
          (getField row (dictGet cols "position / division")) ∧
        (getField row (dictGet cols "position / \ndivision") ≠ "" →
          r.position = getField row (dictGet cols "position / \ndivision")) ∧
        (getField row (dictGet cols "position / \ndivision") = "" →
          r.position = getField row (dictGet cols "position / division")) := by
  intro rows h cols out r hf hp hr
  unfold parse_drivers at hp
  rw [hf] at hp
  simp only [Option.some.injEq] at hp
  subst hp
  rw [drivers_fold] at hr
  rw [List.nil_append] at hr
  obtain ⟨i, row, hrow, hb⟩ := mem_mapIdxFrom _ _ _ _ hr
  refine ⟨row, List.mem_of_mem_filter hrow, ?_, ?_, ?_⟩
  · rw [hb]
    rfl
  · intro hne
    rw [hb]
    show pyOr _ _ = _
    unfold pyOr
    rw [if_neg hne]
  · intro he
    rw [hb]
    show pyOr _ _ = _
    unfold pyOr
    rw [if_pos he]

/-- C5 witness: the amended fallback rule applied to the concrete grid
`drvGridW` and its single extracted record. -/
theorem field_fallback_first_nonempty_witness :
    ∃ row, row ∈ drvGridW.drop 1 ∧
      (mkDriverRec (buildHeaderMap drvHdrW) 1 drvRowW).position =
        pyOr (getField row (dictGet (buildHeaderMap drvHdrW) "position / \ndivision"))
          (getField row (dictGet (buildHeaderMap drvHdrW) "position / division")) ∧
      (getField row (dictGet (buildHeaderMap drvHdrW) "position / \ndivision") ≠ "" →
        (mkDriverRec (buildHeaderMap drvHdrW) 1 drvRowW).position =
          getField row (dictGet (buildHeaderMap drvHdrW) "position / \ndivision")) ∧
      (getField row (dictGet (buildHeaderMap drvHdrW) "position / \ndivision") = "" →
        (mkDriverRec (buildHeaderMap drvHdrW) 1 drvRowW).position =
          getField row (dictGet (buildHeaderMap drvHdrW) "position / division")) :=
  field_fallback_first_nonempty drvGridW 0 (buildHeaderMap drvHdrW)
    [mkDriverRec (buildHeaderMap drvHdrW) 1 drvRowW]
    (mkDriverRec (buildHeaderMap drvHdrW) 1 drvRowW)
    (by decide) (by decide) (by decide)

/-- C9: field lookup is total — a missing column index or an out-of-range
index yields the empty string — and when a column title is absent from the
header map under both its primary and fallback spellings (here the drivers'
TWIC field), the field is the empty string in every extracted record while
the sheet's extraction still succeeds. -/
theorem missing_column_yields_empty :
    (∀ row, getField row none = "") ∧
    (∀ row i, row.length ≤ i → getField row (some i) = "") ∧
    (∀ rows h cols, find_header_row rows driversKeys = some (h, cols) →
      dictGet cols "twic card" = none → dictGet cols "twic card " = none →
      ∃ out, parse_drivers rows = some out ∧ ∀ r ∈ out, r.twic = "") := by
  refine ⟨fun row => rfl, ?_, ?_⟩
  · intro row i h
    unfold getField
    exact if_pos h
  · intro rows h cols hf h1 h2
    refine ⟨(rows.drop (h + 1)).foldl (driversStep cols) [], ?_, ?_⟩
    · unfold parse_drivers
      rw [hf]
    · intro r hr
      rw [drivers_fold, List.nil_append] at hr
      obtain ⟨i, row, hrow, hb⟩ := mem_mapIdxFrom _ _ _ _ hr
      rw [hb]
      show pyOr (getField row (dictGet cols "twic card")) (getField row (dictGet cols "twic card ")) = ""
      rw [h1, h2]
      rfl

/-- C9 witness: the concrete grid `drv9GridW` has no TWIC column under
either spelling; its extraction succeeds and the record's TWIC field is
empty. -/
theorem missing_column_yields_empty_witness :
    ∃ out, parse_drivers drv9GridW = some out ∧ ∀ r ∈ out, r.twic = "" :=
  missing_column_yields_empty.2.2 drv9GridW 0 (buildHeaderMap drv9HdrW)
    (by decide) (by decide) (by decide)

/- ------------------------------------------------------------------ -/
/- Claim C3: deduplication                                             -/
/- ------------------------------------------------------------------ -/

theorem dedupe_fold :
    ∀ (l : List OtrRec) (seen : List (String × String × String × String))
      (prev acc : List OtrRec),
      (∀ k, seen.any (fun k2 => decide (k2 = k)) = prev.any (fun s => decide (otrKey s = k))) →
      (l.foldl dedupeStep (seen, acc)).2 = acc ++ firstOccAux prev l := by
  intro l
  induction l with
  | nil =>
    intro seen prev acc hinv
    simp [firstOccAux]
  | cons r rest ih =>
    intro seen prev acc hinv
    rw [List.foldl_cons]
    by_cases hmem : seen.any (fun k2 => decide (k2 = otrKey r)) = true
    · have hprev : prev.any (fun s => decide (otrKey s = otrKey r)) = true := by
        rw [← hinv]
        exact hmem
      have hstep : dedupeStep (seen, acc) r = (seen, acc) := by
        unfold dedupeStep
        rw [if_pos hmem]
      rw [hstep, firstOccAux, if_pos hprev]
      apply ih
      intro k
      rw [hinv k, List.any_append]
      by_cases hk : otrKey r = k
      · have h1 : prev.any (fun s => decide (otrKey s = k)) = true := by
          rw [← hk]
          exact hprev
        rw [h1]
        simp
      · have h2 : [r].any (fun s => decide (otrKey s = k)) = false := by
          simp [hk]
        rw [h2]
        simp
    · have hmemf : seen.any (fun k2 => decide (k2 = otrKey r)) = false := by
        rw [← Bool.not_eq_true]
        exact hmem
      have hprev : prev.any (fun s => decide (otrKey s = otrKey r)) = false := by
        rw [← hinv]
        exact hmemf
      have hstep : dedupeStep (seen, acc) r = (otrKey r :: seen, acc ++ [r]) := by
        unfold dedupeStep
        rw [if_neg hmem]
      have hinv' : ∀ k, (otrKey r :: seen).any (fun k2 => decide (k2 = k)) =
          (prev ++ [r]).any (fun s => decide (otrKey s = k)) := by
        intro k
        rw [List.any_cons, List.any_append, hinv k]
        simp [Bool.or_comm]
      rw [hstep, firstOccAux, if_neg (by rw [hprev]; exact Bool.false_ne_true),
        ih (otrKey r :: seen) (prev ++ [r]) (acc ++ [r]) hinv']
      simp

/-- C3: deduplication keeps exactly the first record of each group sharing
the composite key (lower-cased normalized name, normalized phone text,
normalized passed-date text, normalized return-to-grid-date text), drops
every later record with an equal key regardless of its other fields, and the
survivors are renumbered `otr_1, otr_2, ...` sequentially from 1 in output
order, leaving no gaps. -/
theorem dedupe_otr_first_occurrence :
    ∀ records, dedupe_otr records = mapIdxFrom 0 setOtrId (firstOccAux [] records) := by
  intro records
  unfold dedupe_otr
  rw [dedupe_fold records [] [] [] (fun k => rfl), List.nil_append]

/- ------------------------------------------------------------------ -/
/- Claim C7: grid row shape                                            -/
/- ------------------------------------------------------------------ -/

theorem dictGet_insert_self (d : List (Nat × String)) (k : Nat) (v : String) :
    dictGet (dictInsert d k v) k = some v := by
  unfold dictInsert dictGet
  by_cases hp : d.any (fun p => p.1 == k) = true
  · rw [if_pos hp, List.find?_map]
    have hq : ((fun (p : Nat × String) => p.1 == k) ∘
        (fun (p : Nat × String) => if p.1 == k then (k, v) else p)) =
        (fun (p : Nat × String) => p.1 == k) := by
      funext p
      simp only [Function.comp]
      by_cases hpk : (p.1 == k) = true
      · rw [if_pos hpk]
        simp [hpk]
      · rw [if_neg hpk]
    rw [hq]
    have hsome : (d.find? (fun p => p.1 == k)).isSome = true := by
      rw [List.find?_isSome]
      rcases List.any_eq_true.mp hp with ⟨p, hpmem, hpeq⟩
      exact ⟨p, hpmem, hpeq⟩
    obtain ⟨e, he⟩ := Option.isSome_iff_exists.mp hsome
    have heq0 := List.find?_some he
    have heq : (e.1 == k) = true := heq0
    have hek : e.1 = k := by simpa using heq
    rw [he]
    simp [heq, hek]
  · rw [if_neg hp, List.find?_append]
    have hnone : d.find? (fun p => p.1 == k) = none := by
      rw [List.find?_eq_none]
      intro x hx hcx
      exact hp (List.any_eq_true.mpr ⟨x, hx, hcx⟩)
    rw [hnone]
    simp

theorem dictGet_insert_ne (d : List (Nat × String)) (k j : Nat) (v : String) (hne : j ≠ k) :
    dictGet (dictInsert d k v) j = dictGet d j := by
  unfold dictInsert dictGet
  by_cases hp : d.any (fun p => p.1 == k) = true
  · rw [if_pos hp, List.find?_map]
    have hq : ((fun (p : Nat × String) => p.1 == j) ∘
        (fun (p : Nat × String) => if p.1 == k then (k, v) else p)) =
        (fun (p : Nat × String) => p.1 == j) := by
      funext p
      simp only [Function.comp]
      by_cases hpk : (p.1 == k) = true
      · have hpk' : p.1 = k := by simpa using hpk
        rw [if_pos hpk, hpk']
      · rw [if_neg hpk]
    rw [hq]
    cases he : d.find? (fun p => p.1 == j) with
    | none => simp
    | some e =>
      have heq0 := List.find?_some he
      have heq : (e.1 == j) = true := heq0
      have hej : e.1 = j := by simpa using heq
      have hek : e.1 ≠ k := by
        rw [hej]
        exact hne
      simp [hek]
  · rw [if_neg hp, List.find?_append]
    cases he : d.find? (fun p => p.1 == j) with
    | none =>
      have hkj : (((k, v) : Nat × String).1 == j) = false := by
        rw [beq_eq_false_iff_ne]
        exact fun hc => hne hc.symm
      simp [List.find?_cons, hkj]
    | some e => simp

theorem dictInsert_keys (d : List (Nat × String)) (k : Nat) (v : String) :
    (dictInsert d k v).map (fun p => p.1) =
      (if d.any (fun p => p.1 == k) = true then d.map (fun p => p.1)
       else d.map (fun p => p.1) ++ [k]) := by
  unfold dictInsert
  by_cases hp : d.any (fun p => p.1 == k) = true
  · rw [if_pos hp, if_pos hp, List.map_map]
    have hq : ((fun (p : Nat × String) => p.1) ∘
        (fun (p : Nat × String) => if p.1 == k then (k, v) else p)) =
        (fun (p : Nat × String) => p.1) := by
      funext p
      simp only [Function.comp]
      by_cases hpk : (p.1 == k) = true
      · have hpk' : p.1 = k := by simpa using hpk
        rw [if_pos hpk, hpk']
      · rw [if_neg hpk]
    rw [hq]
  · rw [if_neg hp, if_neg hp, List.map_append]
    rfl

theorem foldl_max_init_le (l : List Nat) : ∀ a, a ≤ l.foldl max a := by
  induction l with
  | nil => intro a; exact le_refl a
  | cons x l ih =>
    intro a
    exact le_trans (le_max_left a x) (ih (max a x))

theorem foldl_max_mem_le (l : List Nat) : ∀ a x, x ∈ l → x ≤ l.foldl max a := by
  induction l with
  | nil =>
    intro a x hx
    simp at hx
  | cons y l ih =>
    intro a x hx
    rcases List.mem_cons.mp hx with h0 | h1
    · subst h0
      exact le_trans (le_max_right a x) (foldl_max_init_le l (max a x))
    · exact ih (max a y) x h1

theorem rowVals_max (shared : List String) :
    ∀ (cells : List XmlCell) (d : List (Nat × String)),
      ((cells.foldl (rowStep shared) d).map (fun p => p.1)).foldl max 0 =
        (populatedCols cells).foldl max ((d.map (fun p => p.1)).foldl max 0) := by
  intro cells
  induction cells with
  | nil =>
    intro d
    simp [populatedCols]
  | cons c cells ih =>
    intro d
    rw [List.foldl_cons]
    cases hpr : parseRef c.ref with
    | none =>
      have hstep : rowStep shared d c = d := by
        unfold rowStep
        rw [hpr]
      have hpc : populatedCols (c :: cells) = populatedCols cells := by
        unfold populatedCols
        rw [List.filterMap_cons]
        simp [hpr]
      rw [hstep, hpc]
      exact ih d
    | some col =>
      have hstep : rowStep shared d c = dictInsert d col (cellValue shared c) := by
        unfold rowStep
        rw [hpr]
      have hpc : populatedCols (c :: cells) = col :: populatedCols cells := by
        unfold populatedCols
        rw [List.filterMap_cons]
        simp [hpr]
      rw [hstep, hpc, ih (dictInsert d col (cellValue shared c)), List.foldl_cons]
      congr 1
      rw [dictInsert_keys]
      by_cases hp : d.any (fun p => p.1 == col) = true
      · rw [if_pos hp]
        have hmem : col ∈ d.map (fun p => p.1) := by
          rcases List.any_eq_true.mp hp with ⟨p, hpmem, hpeq⟩
          have hpc' : p.1 = col := by simpa using hpeq
          exact hpc' ▸ List.mem_map_of_mem _ hpmem
        have hle : col ≤ (d.map (fun p => p.1)).foldl max 0 :=
          foldl_max_mem_le _ 0 col hmem
        exact (Nat.max_eq_left hle).symm
      · rw [if_neg hp, List.foldl_append]
        rfl

theorem rowVals_get_none (shared : List String) :
    ∀ (cells : List XmlCell) (d : List (Nat × String)) (j : Nat),
      dictGet (cells.foldl (rowStep shared) d) j = none ↔
        (dictGet d j = none ∧ j ∉ populatedCols cells) := by
  intro cells
  induction cells with
  | nil =>
    intro d j
    simp [populatedCols]
  | cons c cells ih =>
    intro d j
    rw [List.foldl_cons]
    cases hpr : parseRef c.ref with
    | none =>
      have hstep : rowStep shared d c = d := by
        unfold rowStep
        rw [hpr]
      have hpc : populatedCols (c :: cells) = populatedCols cells := by
        unfold populatedCols
        rw [List.filterMap_cons]
        simp [hpr]
      rw [hstep, hpc]
      exact ih d j
    | some col =>
      have hstep : rowStep shared d c = dictInsert d col (cellValue shared c) := by
        unfold rowStep
        rw [hpr]
      have hpc : populatedCols (c :: cells) = col :: populatedCols cells := by
        unfold populatedCols
        rw [List.filterMap_cons]
        simp [hpr]
      rw [hstep, hpc, ih (dictInsert d col (cellValue shared c)) j]
      by_cases hj : j = col
      · subst hj
        rw [dictGet_insert_self]
        simp
      · rw [dictGet_insert_ne d col j _ hj]
        simp [hj]

theorem buildRow_shape (shared : List String) (cells : List XmlCell) (row : List String)
    (h : buildRow shared cells = some row) :
    row.length = (populatedCols cells).foldl max 0 ∧
    ∀ i (hi : i < row.length), (i + 1) ∉ populatedCols cells → row.get ⟨i, hi⟩ = "" := by
  unfold buildRow at h
  by_cases he : (rowVals shared cells).isEmpty = true
  · rw [if_pos he] at h
    exact absurd h (by simp)
  · rw [if_neg he] at h
    simp only [Option.some.injEq] at h
    subst h
    constructor
    · rw [List.length_map, List.length_range]
      have hm := rowVals_max shared cells []
      unfold rowVals
      simpa using hm
    · intro i hi hnp
      have hnone : dictGet (rowVals shared cells) (i + 1) = none := by
        unfold rowVals
        rw [rowVals_get_none]
        exact ⟨rfl, hnp⟩
      simp [List.get_eq_getElem, List.getElem_map, List.getElem_range, hnone]

/-- C7: a worksheet document row with zero cell entries produces no Grid row
at all, and every Grid row has length equal to the highest populated column
number of its document row, with each column position not populated in the
XML filled by the empty-string cell. -/
theorem grid_row_shape :
    (∀ shared, buildRow shared [] = none) ∧
    (∀ shared docRows row, row ∈ load_sheet_rows shared docRows →
      ∃ cells, cells ∈ docRows ∧ buildRow shared cells = some row ∧
        row.length = (populatedCols cells).foldl max 0 ∧
        ∀ i (hi : i < row.length), (i + 1) ∉ populatedCols cells → row.get ⟨i, hi⟩ = "") := by
  constructor
  · intro shared
    rfl
  · intro shared docRows row hrow
    unfold load_sheet_rows at hrow
    rw [List.mem_filterMap] at hrow
    obtain ⟨cells, hc, hb⟩ := hrow
    obtain ⟨hlen, hgap⟩ := buildRow_shape shared cells row hb
    exact ⟨cells, hc, hb, hlen, hgap⟩

/-- C7 witness: in the concrete document rows `docRowsW` the empty row is
omitted, and the emitted row `["", "x"]` has length 2 (the highest populated
column) with the unpopulated first column filled by the empty string. -/
theorem grid_row_shape_witness :
    ∃ cells, cells ∈ docRowsW ∧ buildRow [] cells = some ["", "x"] ∧
      (["", "x"] : List String).length = (populatedCols cells).foldl max 0 ∧
      ∀ i (hi : i < (["", "x"] : List String).length), (i + 1) ∉ populatedCols cells →
        (["", "x"] : List String).get ⟨i, hi⟩ = "" :=
  grid_row_shape.2 [] docRowsW ["", "x"] (by decide)

/- ------------------------------------------------------------------ -/
/- Claim C10: shared-string reference fallback                         -/
/- ------------------------------------------------------------------ -/

theorem cellValue_sref (shared : List String) (ref txt : String) :
    cellValue shared { ref := ref, t := some "s", inl := none, v := some txt } =
      (match pyInt txt with
       | none => txt
       | some i => (pyIndex shared i).getD txt) := rfl

/-- C10: for a cell marked as a shared-string reference, a value text that is
not a valid Python index into the shared-string table — non-integer text, or
an integer outside the table's index range — resolves to the literal value
text; the builder's cell resolution is a total function, so worksheet
parsing never aborts on a malformed shared-string reference. -/
theorem shared_string_fallback :
    ∀ shared (c : XmlCell) txt, c.inl = none → c.v = some txt → c.t = some "s" →
      (pyInt txt = none → cellValue shared c = txt) ∧
      (∀ i, pyInt txt = some i →
        (i < -(shared.length : Int) ∨ (shared.length : Int) ≤ i) →
        cellValue shared c = txt) := by
  intro shared c txt hinl hv ht
  obtain ⟨ref, t, inl, v⟩ := c
  have hinl' : inl = none := hinl
  have hv' : v = some txt := hv
  have ht' : t = some "s" := ht
  subst hinl' hv' ht'
  constructor
  · intro hpi
    rw [cellValue_sref, hpi]
  · intro i hpi hrange
    rw [cellValue_sref, hpi]
    show (pyIndex shared i).getD txt = txt
    have hnone : pyIndex shared i = none := by
      unfold pyIndex
      rw [if_neg (by omega), if_neg (by omega)]
    rw [hnone]
    rfl

/-- C10 witness: with a one-element shared table, the non-integer reference
text `"x7"` and the out-of-range index text `"5"` both resolve to their
literal value text. -/
theorem shared_string_fallback_witness :
    cellValue ["alpha"] cellBadIdx = "x7" ∧ cellValue ["alpha"] cellOobIdx = "5" :=
  ⟨(shared_string_fallback ["alpha"] cellBadIdx "x7" rfl rfl rfl).1 (by decide),
   (shared_string_fallback ["alpha"] cellOobIdx "5" rfl rfl rfl).2 5 (by decide) (by decide)⟩
